import Mathlib

/-!
# Verification of the document normalization and version-gated processing pipeline

A shallow embedding of the core of the `mad-data-loader` repository
(`src/core/processor.py`, `src/utils/cache.py`, `src/models/document.py`)
together with proofs about it.

Modelling conventions:
* Python strings are `String` / `List Char`; the embedding works over `.data`
  so every definition evaluates by kernel reduction.  Regular expressions from
  the source are embedded as explicit scanners over `List Char`; the relevant
  character classes (`\d`, `\s`, `[A-Z0-9]`) are modelled over their ASCII
  meaning.
* A parsed HTML document (BeautifulSoup soup) is modelled as the flat list of
  its top-level sibling nodes (`Node`); a node is a heading tag `h1`..`h6`, a
  non-heading element tag, or a bare text node (bs4 `NavigableString`).  Tags
  are always truthy (bs4 `Tag.__bool__` returns `True`); a text node is falsy
  exactly when empty.
* Metadata tables are modelled as the list of their rows of cell texts
  (row-major, `th`/`td` merged, as produced by `row.find_all(["th", "td"])`).
* `_html_to_markdown` wraps the external `markdown2` library; it is a
  parameter `md : String → String` of the segmenter and of the configuration.
* Confluence version numbers are JSON integers, modelled as `Nat`; the
  `float(...)` casts at processor.py:82-84 are exact on them, so the version
  gate's comparison is the numeric `≤` on `Nat`.
* The external embedding vector (a list of floats produced by the embedding
  service) and the wall-clock timestamps stored in the cache are not part of
  any modelled observation and are omitted from the records.
* The SQLite layer of `utils/cache.py` is modelled as an association list of
  entries plus a `failing` flag; a raw operation raises (`Except.error`)
  exactly when the store is failing, and the `Cache` wrappers catch, which
  mirrors the `try`/`except` structure of the source.
-/

/-! ## Basic string helpers (Python `str` operations, ASCII fragment) -/

/-- Python `patt in s` (substring test) on char lists:
`sublistAt pat l` holds when `pat` occurs as a contiguous sublist of `l`. -/
def sublistAt (pat : List Char) : List Char → Bool
  | [] => pat.isEmpty
  | c :: cs => pat.isPrefixOf (c :: cs) || sublistAt pat cs

/-- Python substring containment `pat in hay`. -/
def containsSub (hay pat : String) : Bool :=
  sublistAt pat.data hay.data

/-- Python `s.lower()` (ASCII letters). -/
def lowerStr (s : String) : String :=
  String.mk (s.data.map Char.toLower)

/-- Python `s.upper()` (ASCII letters). -/
def upperStr (s : String) : String :=
  String.mk (s.data.map Char.toUpper)

/-- Python `s.strip()` on char lists (whitespace at both ends). -/
def trimChars (l : List Char) : List Char :=
  ((l.dropWhile Char.isWhitespace).reverse.dropWhile Char.isWhitespace).reverse

/-- Python `s.strip()`. -/
def trimStr (s : String) : String :=
  String.mk (trimChars s.data)

/-- Python `s.startswith(p)`. -/
def strStarts (s p : String) : Bool :=
  p.data.isPrefixOf s.data

/-- Strip an expected literal from the front of `l`, returning the remainder. -/
def stripLit : List Char → List Char → Option (List Char)
  | [], l => some l
  | p :: ps, l =>
    match l with
    | [] => none
    | c :: cs => if p = c then stripLit ps cs else none

theorem stripLit_length_le : ∀ (ps l r : List Char), stripLit ps l = some r → r.length ≤ l.length := by
  intro ps
  induction ps with
  | nil =>
    intro l r h
    cases h
    exact Nat.le_refl _
  | cons p ps ih =>
    intro l r h
    cases l with
    | nil => exact Option.noConfusion h
    | cons c cs =>
      simp only [stripLit] at h
      split at h
      · exact Nat.le_trans (ih cs r h) (Nat.le_succ _)
      · exact Option.noConfusion h

/-! ## The requirement-ID pattern `(FR|PR|SR|UR|RR|CR|BR|INT)-[A-Z0-9]+-\d{3}`
(processor.py:420-424), embedded as an explicit scanner.  The `[A-Z0-9]+` run
is matched greedily; backtracking it can never help because the character
required right after the run is `-`, which is not in the class. -/

/-- The character class `[A-Z0-9]`. -/
def isUpperAlnum (c : Char) : Bool :=
  ('A' ≤ c && c ≤ 'Z') || c.isDigit

/-- The alternatives of the requirement tag, in the order of the pattern. -/
def reqTags : List (List Char) :=
  [['F','R'], ['P','R'], ['S','R'], ['U','R'], ['R','R'], ['C','R'], ['B','R'], ['I','N','T']]

/-- Try each tag alternative at the current position. -/
def findTag : List (List Char) → List Char → Option (List Char × List Char)
  | [], _ => none
  | t :: ts, l =>
    match stripLit t l with
    | some r => some (t, r)
    | none => findTag ts l

theorem findTag_length_le : ∀ (ts : List (List Char)) (l t r : List Char),
    findTag ts l = some (t, r) → r.length ≤ l.length := by
  intro ts
  induction ts with
  | nil => intro l t r h; exact Option.noConfusion h
  | cons t' ts ih =>
    intro l t r h
    simp only [findTag] at h
    split at h
    · rename_i heq
      cases h
      exact stripLit_length_le _ _ _ heq
    · exact ih l t r h

/-- Attempt to match the requirement-ID pattern at the head of `l`.
Returns the matched characters and the remainder of the input. -/
def reqMatchAt (l : List Char) : Option (List Char × List Char) :=
  match findTag reqTags l with
  | none => none
  | some (tag, r1) =>
    match r1 with
    | '-' :: r2 =>
      let run := r2.takeWhile isUpperAlnum
      let r3 := r2.dropWhile isUpperAlnum
      if run.isEmpty then none
      else
        match r3 with
        | '-' :: d1 :: d2 :: d3 :: rest =>
          if d1.isDigit && d2.isDigit && d3.isDigit then
            some (tag ++ '-' :: (run ++ '-' :: [d1, d2, d3]), rest)
          else none
        | _ => none
    | _ => none

theorem reqMatchAt_length_lt (l m rest : List Char) (h : reqMatchAt l = some (m, rest)) :
    rest.length < l.length := by
  unfold reqMatchAt at h
  split at h
  · exact Option.noConfusion h
  · rename_i tag r1 htag
    have hr1 : r1.length ≤ l.length := findTag_length_le _ _ _ _ htag
    split at h
    · rename_i r2
      simp only at h
      split at h
      · exact Option.noConfusion h
      · split at h
        · rename_i d1 d2 d3 rest' hr3
          split at h
          · cases h
            have hdrop : (r2.dropWhile isUpperAlnum).length ≤ r2.length :=
              (List.dropWhile_sublist isUpperAlnum).length_le
            rw [hr3] at hdrop
            simp only [List.length_cons] at hdrop hr1 ⊢
            omega
          · exact Option.noConfusion h
        · exact Option.noConfusion h
    · exact Option.noConfusion h

/-- `re.findall` for the requirement-ID pattern: scan left to right, emitting
non-overlapping matches, advancing one character after a failed position.
Structural recursion on a fuel counter (so that the definition evaluates by
kernel reduction); by `reqMatchAt_length_lt` each step consumes at least one
character, so fuel equal to the input length never runs out. -/
def reqScanFuel : Nat → List Char → List (List Char)
  | 0, _ => []
  | _ + 1, [] => []
  | f + 1, c :: cs =>
    match reqMatchAt (c :: cs) with
    | some (m, rest) => m :: reqScanFuel f rest
    | none => reqScanFuel f cs

/-- Scan a whole character list for requirement-ID matches. -/
def reqScan (l : List Char) : List (List Char) :=
  reqScanFuel l.length l

/-- With fuel at least the input length, `reqScanFuel` is fuel-independent. -/
theorem reqScanFuel_congr : ∀ (f g : Nat) (l : List Char), l.length ≤ f → l.length ≤ g →
    reqScanFuel f l = reqScanFuel g l := by
  intro f
  induction f with
  | zero =>
    intro g l hf _
    have hnil : l = [] := List.length_eq_zero.mp (Nat.le_zero.mp hf)
    subst hnil
    cases g <;> rfl
  | succ f ih =>
    intro g l hf hg
    cases l with
    | nil => cases g <;> rfl
    | cons c cs =>
      cases g with
      | zero => exact absurd hg (by simp)
      | succ g' =>
        simp only [reqScanFuel]
        cases hm : reqMatchAt (c :: cs) with
        | some p =>
          obtain ⟨m, rest⟩ := p
          have hlt : rest.length < (c :: cs).length := reqMatchAt_length_lt _ _ _ hm
          simp only [List.length_cons] at hlt hf hg
          exact congrArg (m :: ·) (ih g' rest (by omega) (by omega))
        | none =>
          simp only [List.length_cons] at hf hg
          exact ih g' cs (by omega) (by omega)

/-- `re.findall(r"((?:FR|PR|SR|UR|RR|CR|BR|INT)-[A-Z0-9]+-\d{3})", content)`
(the single group is the whole pattern, so this is the list of matches). -/
def reqFindall (content : String) : List String :=
  (reqScan content.data).map String.mk

example : reqFindall "See FR-ABC-001 and FR-ABC-001 again" = ["FR-ABC-001", "FR-ABC-001"] := by decide

example : reqFindall "INT-X9-1234 tail" = ["INT-X9-123"] := by decide

example : reqFindall "FR-abc-001" = [] := by decide

/-! ## Heading numbering: `re.match(r"^(\d+(?:\.\d+)*)\s+(.+)$", heading_text)`
(processor.py:393-398).  The match is attempted on the already-stripped
heading text; the groups `\d+`, `(\.\d+)*` and `\s+` are greedy and, on
stripped input, backtracking never yields a different outcome (shrinking a
maximal digit run leaves a digit where `.` or `\s` is required, and the run
of `\s` is never final).  `.` does not match a newline, so a newline in the
remainder makes the match fail. -/

/-- Greedily consume `(\.\d+)*`: repeated groups of a dot followed by at
least one digit.  Fuel-based structural recursion; each iteration consumes
at least two characters. -/
def dotGroupsFuel : Nat → List Char → List Char × List Char
  | 0, l => ([], l)
  | f + 1, l =>
    match l with
    | '.' :: rest =>
      let ds := rest.takeWhile Char.isDigit
      if ds.isEmpty then ([], l)
      else
        let (g, r) := dotGroupsFuel f (rest.dropWhile Char.isDigit)
        ('.' :: (ds ++ g), r)
    | _ => ([], l)

/-- Greedy `(\.\d+)*` on a character list. -/
def dotGroups (l : List Char) : List Char × List Char :=
  dotGroupsFuel l.length l

/-- Split a (stripped) heading text into its dotted numeric section number and
the remaining title; `("", t)` when the pattern does not match. -/
def headingNumSplit (t : String) : String × String :=
  let l := t.data
  let ds := l.takeWhile Char.isDigit
  if ds.isEmpty then ("", t)
  else
    let (g, r2) := dotGroups (l.dropWhile Char.isDigit)
    let ws := r2.takeWhile Char.isWhitespace
    let rest := r2.dropWhile Char.isWhitespace
    if ws.isEmpty then ("", t)
    else if rest.isEmpty then ("", t)
    else if rest.contains '\n' then ("", t)
    else (String.mk (ds ++ g), String.mk rest)

example : headingNumSplit "1.2 Scope" = ("1.2", "Scope") := by decide

example : headingNumSplit "12bananas" = ("", "12bananas") := by decide

example : headingNumSplit "1 2 3" = ("1", "2 3") := by decide

/-! ## The document model: the flat list of top-level sibling nodes of the
parsed page body.  A heading carries its level, its stripped-relevant text
(`heading.text`) and its raw markup (`str(heading)`); a non-heading element
carries its tag name and raw markup; a bare text node (bs4 `NavigableString`)
carries its text and has no tag name. -/

inductive Node where
  | heading (level : Nat) (text : String) (raw : String)
  | elem (tag : String) (raw : String)
  | textNode (s : String)
deriving DecidableEq

/-- The six heading tag names `["h1", ..., "h6"]` (processor.py:371, 413). -/
def headingTagNames : List String := ["h1", "h2", "h3", "h4", "h5", "h6"]

/-- Whether a node is one of the headings found by
`soup.find_all(["h1", ..., "h6"])`. -/
def Node.isHeadingNode : Node → Bool
  | .heading _ _ _ => true
  | _ => false

/-- Python truthiness of a bs4 node: a `Tag` is always truthy
(`Tag.__bool__` returns `True`); a `NavigableString` is truthy exactly when
non-empty. -/
def Node.truthy : Node → Bool
  | .textNode s => !s.isEmpty
  | _ => true

/-- `str(current)` for an element appended to `content_elements`
(processor.py:413-414): only tag elements whose name is not a heading tag
contribute; bare text nodes have no `name` and are skipped. -/
def Node.contentStr : Node → Option String
  | .elem tag raw => if headingTagNames.contains tag then none else some raw
  | _ => none

/-- `str(node)` as rendered inside `str(soup)`. -/
def Node.rawStr : Node → String
  | .heading _ _ raw => raw
  | .elem _ raw => raw
  | .textNode s => s

/-- `str(soup)`: concatenation of the top-level nodes' markup. -/
def docRaw (doc : List Node) : String :=
  String.join (doc.map Node.rawStr)

/-- The sibling walk of processor.py:406-415: starting right after a heading,
collect nodes while the current node is truthy and is not one of the later
headings.  In a flat sibling list every heading after position `i` is a
member of `headings[i+1:]` (bs4 tag equality is structural), and no
non-heading node can equal a heading, so the walk stops exactly at the next
heading of any level (or at a falsy node, or at the end of the siblings). -/
def gapAfter (rest : List Node) : List Node :=
  rest.takeWhile fun n => n.truthy && !n.isHeadingNode

/-- Pair every heading (in document order) with its following content run. -/
def pairHeadGaps : List Node → List ((Nat × String) × List Node)
  | [] => []
  | .heading lvl text _raw :: rest => ((lvl, text), gapAfter rest) :: pairHeadGaps rest
  | .elem _ _ :: rest => pairHeadGaps rest
  | .textNode _ :: rest => pairHeadGaps rest

/-- `DocumentSection` from `models/document.py`. -/
structure DocumentSection where
  section_id : String
  title : String
  level : Nat
  content : String
  section_number : String := ""
  requirement_ids : List String := []
deriving DecidableEq

/-- Build the `DocumentSection` for the `i`-th heading (processor.py:387-436):
strip the heading text, split off a dotted numeric prefix into
`section_number`, derive `section_id` from the numeric prefix (dots replaced
by underscores) or from the position, convert the collected run through the
markup normalizer `md`, and scan the converted content for requirement IDs. -/
def mkSection (md : String → String) (i : Nat) (lvl : Nat) (text : String)
    (gap : List Node) : DocumentSection :=
  let t := trimStr text
  let (secNum, title) := headingNumSplit t
  let sid :=
    if secNum.isEmpty then "section_" ++ toString (i + 1)
    else "section_" ++ String.mk (secNum.data.map fun c => if c = '.' then '_' else c)
  let content := md (String.join (gap.filterMap Node.contentStr))
  { section_id := sid, title := title, level := lvl, content := content,
    section_number := secNum, requirement_ids := reqFindall content }

/-- The indexed loop `for i, heading in enumerate(headings)`. -/
def buildSections (md : String → String) : Nat → List ((Nat × String) × List Node) → List DocumentSection
  | _, [] => []
  | i, ((lvl, text), gap) :: rest => mkSection md i lvl text gap :: buildSections md (i + 1) rest

/-- `DocumentProcessor._split_content_into_sections` (processor.py:352-438).
With no headings, a single synthetic section is emitted; note that the
synthetic section is built without a `requirement_ids` argument, so the
dataclass default `[]` applies. -/
def splitContentIntoSections (md : String → String) (doc : List Node) : List DocumentSection :=
  let pairs := pairHeadGaps doc
  if pairs.isEmpty then
    [{ section_id := "section_1", title := "Main Content", level := 1,
       content := md (docRaw doc), section_number := "", requirement_ids := [] }]
  else
    buildSections md 0 pairs

/-! ## Metadata extraction (`DocumentProcessor._extract_metadata`,
processor.py:245-350) -/

/-- `DocumentType` from `models/document.py`. -/
inductive DocumentType where
  | ABRD
  | FBRD
  | UNKNOWN
deriving DecidableEq

/-- `DocumentMetadata` from `models/document.py` (dataclass defaults). -/
structure DocumentMetadata where
  document_id : String := ""
  document_type : DocumentType := .UNKNOWN
  project_code : String := ""
  document_version : String := ""
  status : String := ""
  created_date : String := ""
  last_updated_date : String := ""
  document_owner : String := ""
deriving DecidableEq

/-- A metadata table: its rows of cell texts (`th`/`td` merged in row order,
as `row.find_all(["th", "td"])` yields them). -/
abbrev MetaTable := List (List String)

/-- `re.search(r"document\s*id", key, re.IGNORECASE)` at one position of the
lowered key: the literal `document`, any run of whitespace, then `id`. -/
def docIdKeyAt (l : List Char) : Bool :=
  match stripLit "document".data l with
  | some r => "id".data.isPrefixOf (r.dropWhile Char.isWhitespace)
  | none => false

/-- `re.search(r"document\s*id", key, re.IGNORECASE)`: try every position. -/
def docIdKeyScan : List Char → Bool
  | [] => false
  | c :: cs => docIdKeyAt (c :: cs) || docIdKeyScan cs

/-- The fixed, ordered chain of label patterns of processor.py:286-299.
Each row is tested against the patterns in this order and the first match
decides which metadata field the row's value cell is written to.
`re.search(r"created|date created", ...)` is containment of `created`, and
`re.search(r"updated|last updated", ...)` is containment of `updated`. -/
inductive MetaCat where
  | docId
  | version
  | status
  | created
  | updated
  | owner
deriving DecidableEq

/-- The first label pattern (in chain order) matching the key, if any. -/
def keyCategory (key : String) : Option MetaCat :=
  let k := lowerStr key
  if docIdKeyScan k.data then some .docId
  else if containsSub k "version" then some .version
  else if containsSub k "status" then some .status
  else if containsSub k "created" then some .created
  else if containsSub k "updated" then some .updated
  else if containsSub k "owner" || containsSub k "author" then some .owner
  else none

/-- `re.match(r"(?:ABRD|FBRD)-([A-Z0-9]+)-\d{4}-[\d\.]+", document_id)`
(processor.py:348): the captured project code, if the anchored pattern
matches.  As for the requirement pattern, shrinking the greedy `[A-Z0-9]+`
run can never satisfy the following literal `-`. -/
def projCodeMatch (l : List Char) : Option (List Char) :=
  let afterTag :=
    match stripLit "ABRD-".data l with
    | some r => some r
    | none => stripLit "FBRD-".data l
  match afterTag with
  | none => none
  | some r1 =>
    let run := r1.takeWhile isUpperAlnum
    let r2 := r1.dropWhile isUpperAlnum
    if run.isEmpty then none
    else
      match r2 with
      | '-' :: d1 :: d2 :: d3 :: d4 :: r3 =>
        if d1.isDigit && d2.isDigit && d3.isDigit && d4.isDigit then
          match r3 with
          | '-' :: r4 =>
            if (r4.takeWhile fun c => c.isDigit || c = '.').isEmpty then none
            else some run
          | _ => none
        else none
      | _ => none

/-- `DocumentProcessor._parse_document_id` (processor.py:331-350): set the
document type from the ID's literal tag and, when the full pattern matches,
overwrite the project code. -/
def parseDocumentId (m : DocumentMetadata) (document_id : String) : DocumentMetadata :=
  let typ :=
    if strStarts document_id "ABRD-" then DocumentType.ABRD
    else if strStarts document_id "FBRD-" then DocumentType.FBRD
    else DocumentType.UNKNOWN
  let m1 := { m with document_type := typ }
  match projCodeMatch document_id.data with
  | some run => { m1 with project_code := String.mk run }
  | none => m1

/-- One iteration of the row loop of processor.py:280-299: rows with fewer
than two cells are skipped; otherwise the stripped first cell is matched
against the label chain and the stripped second cell is written to the
corresponding field (unconditionally — there is no already-set guard). -/
def applyRow (m : DocumentMetadata) (row : List String) : DocumentMetadata :=
  match row with
  | c0 :: c1 :: _ =>
    let key := trimStr c0
    let value := trimStr c1
    match keyCategory key with
    | some .docId => parseDocumentId { m with document_id := value } value
    | some .version => { m with document_version := value }
    | some .status => { m with status := value }
    | some .created => { m with created_date := value }
    | some .updated => { m with last_updated_date := value }
    | some .owner => { m with document_owner := value }
    | none => m
  | _ => m

/-- The first cell of a table in document order (`table.find("th") or
table.find("td")`, with both cell kinds merged in the row model). -/
def tableFirstCell (t : MetaTable) : Option String :=
  (t.find? fun r => !r.isEmpty).bind List.head?

/-- Candidate test of processor.py:262-265: the first cell's text contains
both `document` and `control`, case-insensitively. -/
def isControlTable (t : MetaTable) : Bool :=
  match tableFirstCell t with
  | some cell => containsSub (lowerStr cell) "document" && containsSub (lowerStr cell) "control"
  | none => false

/-- Fallback test of processor.py:269-273: any string in the table matches
`Document ID` case-insensitively. -/
def hasDocIdCell (t : MetaTable) : Bool :=
  t.any fun r => r.any fun cell => containsSub (lowerStr cell) "document id"

/-- Select the metadata table: first control table, else first table with a
`Document ID` cell. -/
def findMetadataTable (tables : List MetaTable) : Option MetaTable :=
  match tables.find? isControlTable with
  | some t => some t
  | none => tables.find? hasDocIdCell

/-- A Confluence page as consumed by the processor: the fields of the JSON
payload that `process_page` and `_extract_metadata` read.  The parsed body is
present both as its top-level node list (for segmentation) and as its list of
tables (for metadata extraction); both views come from the same markup. -/
structure Page where
  id : String
  version : Nat
  title : String := ""
  body : List Node := []
  tables : List MetaTable := []
  historyCreatedDate : String := ""
  historyCreatedBy : String := ""
  versionWhen : String := ""
  spaceKey : String := ""
deriving DecidableEq

/-- Default of processor.py:302-303: synthesize the document id. -/
def defaultDocId (page : Page) (m : DocumentMetadata) : DocumentMetadata :=
  if m.document_id = "" then { m with document_id := "DOC-" ++ page.id } else m

/-- Default of processor.py:308-309: the page's own revision number.
(The `document_type` default of lines 305-306 is unreachable: every
`DocumentType` value is a non-empty string, hence truthy.) -/
def defaultVersion (page : Page) (m : DocumentMetadata) : DocumentMetadata :=
  if m.document_version = "" then { m with document_version := toString page.version } else m

/-- Default of processor.py:311-312. -/
def defaultStatus (m : DocumentMetadata) : DocumentMetadata :=
  if m.status = "" then { m with status := "UNKNOWN" } else m

/-- Default of processor.py:314-317. -/
def defaultCreated (page : Page) (m : DocumentMetadata) : DocumentMetadata :=
  if m.created_date = "" then
    if page.historyCreatedDate = "" then m else { m with created_date := page.historyCreatedDate }
  else m

/-- Default of processor.py:319-322. -/
def defaultUpdated (page : Page) (m : DocumentMetadata) : DocumentMetadata :=
  if m.last_updated_date = "" then
    if page.versionWhen = "" then m else { m with last_updated_date := page.versionWhen }
  else m

/-- Default of processor.py:324-327. -/
def defaultOwner (page : Page) (m : DocumentMetadata) : DocumentMetadata :=
  if m.document_owner = "" then
    if page.historyCreatedBy = "" then m else { m with document_owner := page.historyCreatedBy }
  else m

/-- `DocumentProcessor._extract_metadata` (processor.py:245-329): fold the
selected table's rows, then fill defaults in the order of the source. -/
def extractMetadata (page : Page) : DocumentMetadata :=
  let m0 : DocumentMetadata :=
    match findMetadataTable page.tables with
    | some t => t.foldl applyRow {}
    | none => {}
  defaultOwner page (defaultUpdated page (defaultCreated page
    (defaultStatus (defaultVersion page (defaultDocId page m0)))))

/-! ## The version cache (`utils/cache.py`).  The SQLite store is an
association list of entries plus a `failing` flag; raw `db*` operations
raise exactly when the store is failing and the `cache*` wrappers catch,
mirroring the `try`/`except` blocks of the source.  The stored value
(processor.py:192-198) keeps the version, metadata snapshot, document count
and vectorization flag; the wall-clock `processed_at` timestamp is outside
the model. -/

structure CacheValue where
  version : Nat
  metadata : DocumentMetadata
  document_count : Nat
  vectorized : Bool
deriving DecidableEq

structure Store where
  entries : List (String × CacheValue)
  failing : Bool := false
deriving DecidableEq

/-- `SELECT value FROM document_cache WHERE key = ?`. -/
def lookupEntry (es : List (String × CacheValue)) (k : String) : Option CacheValue :=
  match es.find? fun p => p.1 == k with
  | some p => some p.2
  | none => none

def dbGet (s : Store) (k : String) : Except String (Option CacheValue) :=
  if s.failing then .error "database error" else .ok (lookupEntry s.entries k)

/-- `Cache.get` (cache.py:90-124): any storage error is caught and surfaced
as `None`. -/
def cacheGet (s : Store) (k : String) : Option CacheValue :=
  match dbGet s k with
  | .ok v => v
  | .error _ => none

def dbSet (s : Store) (k : String) (v : CacheValue) : Except String Store :=
  if s.failing then .error "database error"
  else .ok { s with entries := (k, v) :: s.entries.filter fun p => p.1 != k }

/-- `Cache.set` (cache.py:126-161): `INSERT OR REPLACE`, returning whether the
write succeeded; on a storage error the store is unchanged and `false` is
returned. -/
def cacheSet (s : Store) (k : String) (v : CacheValue) : Store × Bool :=
  match dbSet s k v with
  | .ok s' => (s', true)
  | .error _ => (s, false)

def dbDelete (s : Store) (k : String) : Except String Store :=
  if s.failing then .error "database error"
  else .ok { s with entries := s.entries.filter fun p => p.1 != k }

/-- `Cache.delete` (cache.py:163-183). -/
def cacheDelete (s : Store) (k : String) : Store × Bool :=
  match dbDelete s k with
  | .ok s' => (s', true)
  | .error _ => (s, false)

def dbClear (s : Store) : Except String (Store × Nat) :=
  if s.failing then .error "database error"
  else .ok ({ s with entries := [] }, s.entries.length)

/-- `Cache.clear` (cache.py:185-208): returns the number of entries removed,
`0` on a storage error. -/
def cacheClear (s : Store) : Store × Nat :=
  match dbClear s with
  | .ok r => r
  | .error _ => (s, 0)

def dbKeys (s : Store) : Except String (List String) :=
  if s.failing then .error "database error" else .ok (s.entries.map Prod.fst)

/-- `Cache.get_keys` (cache.py:210-225): empty on a storage error. -/
def cacheKeys (s : Store) : List String :=
  match dbKeys s with
  | .ok ks => ks
  | .error _ => []

/-! ## The ingestion orchestrator (`DocumentProcessor.process_page`,
processor.py:59-209). -/

/-- The processor's configuration (constructor flags of processor.py:31-56)
together with the external collaborators it calls: the markup normalizer
`md` (`_html_to_markdown`, wrapping the external `markdown2`), the external
summarizer, and whether the external publish call succeeds.  The embedding
service is external and only its presence (the `vectorized` flag) is
observable in the model. -/
structure Config where
  forceReindex : Bool := false
  summarize : Bool := false
  vectorize : Bool := false
  publishOk : Bool := true
  md : String → String := id
  getSummary : String → String := fun _ => ""
  baseUrl : String := ""

/-- `SearchableDocument` from `models/document.py` (the float vector of the
external embedding service is outside the model). -/
structure SearchableDocument where
  id : String
  content : String
  source_page_id : String
  source_page_title : String
  source_url : String
  is_section : Bool
  section_id : String
  section_title : String
  section_level : Nat
  section_number : String
  document_type : DocumentType
  project_code : String
  document_id : String
  document_version : String
  document_status : String
  created_date : String
  last_updated_date : String
  document_owner : String
  summary : String := ""
  requirement_ids : List String := []
  vectorized : Bool := false
deriving DecidableEq

/-- `DocumentProcessor._get_page_url` (processor.py:484-498). -/
def getPageUrl (baseUrl : String) (page : Page) : String :=
  baseUrl ++ "/display/" ++ page.spaceKey ++ "/" ++ page.id

/-- The full-document record (processor.py:130-153); built without a
`requirement_ids` argument, so the dataclass default `[]` applies. -/
def mkFullDoc (cfg : Config) (page : Page) (metadata : DocumentMetadata)
    (markdownContent summary : String) : SearchableDocument :=
  { id := page.id ++ "_v" ++ toString page.version ++ "_full",
    content := markdownContent,
    source_page_id := page.id,
    source_page_title := page.title,
    source_url := getPageUrl cfg.baseUrl page,
    is_section := false,
    section_id := "",
    section_title := "",
    section_level := 0,
    section_number := "",
    document_type := metadata.document_type,
    project_code := metadata.project_code,
    document_id := metadata.document_id,
    document_version := metadata.document_version,
    document_status := metadata.status,
    created_date := metadata.created_date,
    last_updated_date := metadata.last_updated_date,
    document_owner := metadata.document_owner,
    summary := summary,
    requirement_ids := [],
    vectorized := cfg.vectorize }

/-- A per-section record (processor.py:156-186). -/
def mkSectionDoc (cfg : Config) (page : Page) (metadata : DocumentMetadata)
    (s : DocumentSection) : SearchableDocument :=
  { id := page.id ++ "_v" ++ toString page.version ++ "_" ++ s.section_id,
    content := s.content,
    source_page_id := page.id,
    source_page_title := page.title,
    source_url := getPageUrl cfg.baseUrl page,
    is_section := true,
    section_id := s.section_id,
    section_title := s.title,
    section_level := s.level,
    section_number := s.section_number,
    document_type := metadata.document_type,
    project_code := metadata.project_code,
    document_id := metadata.document_id,
    document_version := metadata.document_version,
    document_status := metadata.status,
    created_date := metadata.created_date,
    last_updated_date := metadata.last_updated_date,
    document_owner := metadata.document_owner,
    summary := "",
    requirement_ids := s.requirement_ids,
    vectorized := cfg.vectorize }

/-- The control-flow outcome of one `process_page` call. -/
inductive PageOutcome where
  | versionSkip
  | statusSkip (metadata : DocumentMetadata)
  | publishFailed (documents : List SearchableDocument)
  | published (documents : List SearchableDocument) (entry : CacheValue)
deriving DecidableEq

/-- The version gate of processor.py:80-84: a cache record exists, forced
reprocessing is off, and the current version is at most the cached version
(the `float` casts are exact on the integer versions, so the comparison is
`≤` on `Nat`). -/
def versionGateSkip (cfg : Config) (store : Store) (page : Page) : Bool :=
  match cacheGet store page.id with
  | some cached => !cfg.forceReindex && decide (page.version ≤ cached.version)
  | none => false

/-- The status gate of processor.py:103: the extracted status, upper-cased,
is `DRAFT` or `APPROVED`. -/
def statusApproved (m : DocumentMetadata) : Bool :=
  (upperStr m.status == "DRAFT") || (upperStr m.status == "APPROVED")

/-- The batch of records assembled by processor.py:126-186: the full-document
record followed by one record per section. -/
def assembleDocuments (cfg : Config) (page : Page) (metadata : DocumentMetadata) : List SearchableDocument :=
  let sections := splitContentIntoSections cfg.md page.body
  let markdown_content := cfg.md (docRaw page.body)
  let summary := if cfg.summarize then cfg.getSummary markdown_content else ""
  mkFullDoc cfg page metadata markdown_content summary ::
    sections.map (mkSectionDoc cfg page metadata)

/-- Processing after the version gate (processor.py:100-205): extract
metadata, apply the status gate, assemble and publish the batch, and build
the cache value of lines 191-198.  Nothing after the gate reads the cache,
so this part does not depend on the store. -/
def processBody (cfg : Config) (page : Page) : PageOutcome :=
  let metadata := extractMetadata page
  if !statusApproved metadata then
    .statusSkip metadata
  else
    let documents := assembleDocuments cfg page metadata
    if cfg.publishOk then
      .published documents
        { version := page.version, metadata := metadata,
          document_count := documents.length, vectorized := cfg.vectorize }
    else
      .publishFailed documents

/-- `DocumentProcessor.process_page` (processor.py:59-209), up to its effects:
the version gate (lines 74-97), the status gate (lines 100-107), record
assembly (lines 126-186), publish (line 189; an external indexing error is
caught at the page boundary and reported as failure), and the cache value of
lines 191-198. -/
def processPageOutcome (cfg : Config) (store : Store) (page : Page) : PageOutcome :=
  if versionGateSkip cfg store page then .versionSkip
  else processBody cfg page

/-- The observable result of one `process_page` call: the returned boolean,
the batch handed to `index_documents` when it succeeded, and the cache value
upserted (if any). -/
structure PageResult where
  ok : Bool
  batch : Option (List SearchableDocument)
  write : Option CacheValue
deriving DecidableEq

def pageResultOf : PageOutcome → PageResult
  | .versionSkip => { ok := true, batch := none, write := none }
  | .statusSkip _ => { ok := true, batch := none, write := none }
  | .publishFailed _ => { ok := false, batch := none, write := none }
  | .published docs e => { ok := true, batch := some docs, write := some e }

/-- `process_page` as a state transformer on the cache store.  The return
value of `cache.set` is ignored by the source (processor.py:192), so a
failing store leaves the state unchanged while the call still reports
success. -/
def processPage (cfg : Config) (store : Store) (page : Page) : PageResult × Store :=
  let r := pageResultOf (processPageOutcome cfg store page)
  match r.write with
  | some e => (r, (cacheSet store page.id e).1)
  | none => (r, store)

/-- The same page re-fetched at another version. -/
def pageAt (base : Page) (v : Nat) : Page :=
  { base with version := v }

/-- Repeatedly invoke `process_page` for one page at a sequence of current
versions, collecting the versions whose run actually published a batch. -/
def runVersions (cfg : Config) (base : Page) : Store → List Nat → Store × List Nat
  | store, [] => (store, [])
  | store, v :: vs =>
    let (r, s') := processPage cfg store (pageAt base v)
    let (s'', pubs) := runVersions cfg base s' vs
    (s'', (if r.batch.isSome then [v] else []) ++ pubs)

/-! ## Helper lemmas about the orchestrator -/

theorem processBody_ne_versionSkip (cfg : Config) (page : Page) :
    processBody cfg page ≠ .versionSkip := by
  unfold processBody
  by_cases h : statusApproved (extractMetadata page) = true
  · simp only [h, Bool.not_true, Bool.false_eq_true, if_false]
    by_cases hp : cfg.publishOk = true <;> simp [hp]
  · simp [Bool.not_eq_true] at h
    simp [h]

/-- A version-gate skip leaves everything untouched and reports success. -/
theorem processPage_gate_skips (cfg : Config) (store : Store) (page : Page)
    (hgate : versionGateSkip cfg store page = true) :
    processPage cfg store page = ({ ok := true, batch := none, write := none }, store) := by
  unfold processPage processPageOutcome
  rw [hgate]
  rfl

/-- When the gate is open, the status approved and the publish call succeeds,
`process_page` publishes the assembled batch and upserts the cache value. -/
theorem processPage_publishes (cfg : Config) (store : Store) (page : Page)
    (hgate : versionGateSkip cfg store page = false)
    (hstatus : statusApproved (extractMetadata page) = true)
    (hpub : cfg.publishOk = true) :
    processPage cfg store page =
      ({ ok := true,
         batch := some (assembleDocuments cfg page (extractMetadata page)),
         write := some { version := page.version, metadata := extractMetadata page,
                         document_count := (assembleDocuments cfg page (extractMetadata page)).length,
                         vectorized := cfg.vectorize } },
       (cacheSet store page.id
          { version := page.version, metadata := extractMetadata page,
            document_count := (assembleDocuments cfg page (extractMetadata page)).length,
            vectorized := cfg.vectorize }).1) := by
  simp only [processPage, processPageOutcome, processBody, hgate, hstatus, hpub,
    Bool.false_eq_true, if_false, Bool.not_true, if_true, pageResultOf]

/-- A status-gate skip (after an open version gate) also leaves everything
untouched and reports success. -/
theorem processPage_status_skips (cfg : Config) (store : Store) (page : Page)
    (hstatus : statusApproved (extractMetadata page) = false) :
    processPage cfg store page = ({ ok := true, batch := none, write := none }, store) := by
  by_cases hg : versionGateSkip cfg store page = true
  · simp only [processPage, processPageOutcome, hg, if_true, pageResultOf]
  · simp only [Bool.not_eq_true] at hg
    simp only [processPage, processPageOutcome, processBody, hg, hstatus,
      Bool.false_eq_true, if_false, Bool.not_false, if_true, pageResultOf]

/-! ## Claim C1 -/

/-- C1.  Version gate: `process_page` skips at the version gate — returning
success with no publish, no cache write and no further processing — exactly
when the cache lookup returns a record, forced reprocessing is off, and the
page's current version is numerically (`float` casts are exact on the
integer versions) at most the cached version; in every other case control
proceeds into processing (`processBody`). -/
theorem claim_C1_version_gate (cfg : Config) (store : Store) (page : Page) :
    (processPageOutcome cfg store page = .versionSkip ↔
      ∃ e, cacheGet store page.id = some e ∧ cfg.forceReindex = false ∧ page.version ≤ e.version) ∧
    (processPageOutcome cfg store page = .versionSkip →
      processPage cfg store page = ({ ok := true, batch := none, write := none }, store)) := by
  constructor
  · unfold processPageOutcome
    by_cases hg : versionGateSkip cfg store page = true
    · rw [hg]
      simp only [if_true, true_iff]
      unfold versionGateSkip at hg
      cases hc : cacheGet store page.id with
      | none => rw [hc] at hg; exact Bool.noConfusion hg
      | some e =>
        rw [hc] at hg
        simp only [Bool.and_eq_true, Bool.not_eq_true', decide_eq_true_eq] at hg
        exact ⟨e, rfl, hg.1, hg.2⟩
    · simp only [Bool.not_eq_true] at hg
      rw [hg]
      simp only [Bool.false_eq_true, if_false]
      constructor
      · intro h; exact absurd h (processBody_ne_versionSkip cfg page)
      · rintro ⟨e, he, hf, hv⟩
        have : versionGateSkip cfg store page = true := by
          unfold versionGateSkip
          rw [he, hf]
          simp [hv]
        rw [hg] at this
        exact Bool.noConfusion this
  · intro h
    have hg : versionGateSkip cfg store page = true := by
      by_contra hg
      simp only [Bool.not_eq_true] at hg
      unfold processPageOutcome at h
      rw [hg] at h
      exact processBody_ne_versionSkip cfg page (by simpa using h)
    exact processPage_gate_skips cfg store page hg

/-! Shared concrete fixtures. -/

def cfg0 : Config := {}

def emptyStore : Store := { entries := [] }

def entry5 : CacheValue :=
  { version := 5, metadata := {}, document_count := 1, vectorized := false }

def storeC1 : Store := { entries := [("p1", entry5)] }

def pageC1 : Page := { id := "p1", version := 3 }

theorem claim_C1_witness :
    processPage cfg0 storeC1 pageC1 = ({ ok := true, batch := none, write := none }, storeC1) := by
  have h := claim_C1_version_gate cfg0 storeC1 pageC1
  exact h.2 (h.1.mpr ⟨entry5, rfl, rfl, by decide⟩)

/-! ## Claim C5 -/

/-- C5.  Status gate: whenever the extracted metadata status, upper-cased, is
neither `DRAFT` nor `APPROVED`, `process_page` publishes no records, performs
no cache update, and returns success. -/
theorem claim_C5_status_gate (cfg : Config) (store : Store) (page : Page)
    (h1 : upperStr (extractMetadata page).status ≠ "DRAFT")
    (h2 : upperStr (extractMetadata page).status ≠ "APPROVED") :
    processPage cfg store page = ({ ok := true, batch := none, write := none }, store) := by
  apply processPage_status_skips
  unfold statusApproved
  simp [h1, h2]

def pageC5 : Page :=
  { id := "p5", version := 1,
    tables := [[["Document Control", ""], ["Status", "Rejected"]]] }

theorem claim_C5_witness :
    upperStr (extractMetadata pageC5).status = "REJECTED" ∧
    processPage cfg0 emptyStore pageC5 = ({ ok := true, batch := none, write := none }, emptyStore) :=
  ⟨by decide, claim_C5_status_gate cfg0 emptyStore pageC5 (by decide) (by decide)⟩

/-! ## Claim C3: label assignment in the metadata-table row loop -/

/-- The metadata string field written by a row of a given category. -/
def metaField : MetaCat → DocumentMetadata → String
  | .docId, m => m.document_id
  | .version, m => m.document_version
  | .status, m => m.status
  | .created, m => m.created_date
  | .updated, m => m.last_updated_date
  | .owner, m => m.document_owner

/-- The category a row is assigned to: rows with fewer than two cells have
none; otherwise the first label pattern (in chain order) matching the
stripped first cell. -/
def rowCategory (row : List String) : Option MetaCat :=
  match row with
  | c0 :: _ :: _ => keyCategory (trimStr c0)
  | _ => none

/-- The value a qualifying row writes: its stripped second cell. -/
def rowValue (row : List String) : String :=
  match row with
  | _ :: c1 :: _ => trimStr c1
  | _ => ""

theorem metaField_parseDocumentId (c : MetaCat) (m : DocumentMetadata) (v : String) :
    metaField c (parseDocumentId m v) = metaField c m := by
  unfold parseDocumentId
  cases hp : projCodeMatch v.data <;> cases c <;> simp [metaField, hp]

theorem metaField_applyRow (c : MetaCat) (m : DocumentMetadata) (row : List String) :
    metaField c (applyRow m row) =
      if rowCategory row = some c then rowValue row else metaField c m := by
  match row with
  | [] => simp [applyRow, rowCategory]
  | [c0] => simp [applyRow, rowCategory]
  | c0 :: c1 :: rest =>
    simp only [applyRow, rowCategory, rowValue]
    cases hk : keyCategory (trimStr c0) with
    | none => simp
    | some cat =>
      cases cat <;> cases c <;>
        first
        | (rw [metaField_parseDocumentId]; simp [metaField])
        | simp [metaField]

/-- Folding the row loop: each field ends up holding the value of the *last*
qualifying row of its category (or its initial value when no row matches). -/
theorem metaField_foldl (c : MetaCat) : ∀ (rows : List (List String)) (m : DocumentMetadata),
    metaField c (rows.foldl applyRow m) =
      match rows.reverse.find? (fun r => decide (rowCategory r = some c)) with
      | some r => rowValue r
      | none => metaField c m := by
  intro rows
  induction rows with
  | nil => intro m; rfl
  | cons r rs ih =>
    intro m
    simp only [List.foldl_cons, List.reverse_cons]
    rw [ih]
    rw [List.find?_append]
    cases hf : rs.reverse.find? (fun r => decide (rowCategory r = some c)) with
    | some r' => simp
    | none =>
      simp only [Option.none_or]
      by_cases hr : rowCategory r = some c
      · simp [List.find?, hr, rowValue, metaField_applyRow]
      · simp [List.find?, hr, metaField_applyRow]

def tableC3 : MetaTable :=
  [["Document Control", "x"], ["Status", "DRAFT"], ["Status", "FINAL"]]

def pageC3 : Page := { id := "p3", version := 1, tables := [tableC3] }

/-- C3 counterexample: in the candidate metadata table with two rows whose
first cell matches the `status` pattern, the extracted status is the value
of the *second* such row (`FINAL`), not of the first (`DRAFT`): a later row
matching an already-assigned category does overwrite the earlier value. -/
theorem claim_C3_counterexample :
    findMetadataTable pageC3.tables = some tableC3 ∧
    rowCategory ["Status", "DRAFT"] = some MetaCat.status ∧
    rowCategory ["Status", "FINAL"] = some MetaCat.status ∧
    (extractMetadata pageC3).status = "FINAL" ∧
    ¬ (extractMetadata pageC3).status = "DRAFT" := by decide

/-- C3 amended.  Per row, the first label pattern in the fixed chain order
(document id, version, status, created, updated, owner) decides the row's
category; but across rows the assignment is *last*-match-wins: after folding
the candidate table's rows, each DocumentMetadata field holds the stripped
value cell of the last two-cell-or-wider row whose first cell matched that
field's pattern (fields with no qualifying row keep their initial value). -/
theorem claim_C3_amended (c : MetaCat) (rows : List (List String)) (m : DocumentMetadata) :
    metaField c (rows.foldl applyRow m) =
      match rows.reverse.find? (fun r => decide (rowCategory r = some c)) with
      | some r => rowValue r
      | none => metaField c m :=
  metaField_foldl c rows m

/-! ## Claim C6: idempotence per version -/

theorem cacheSet_failing (s : Store) (k : String) (v : CacheValue) :
    (cacheSet s k v).1.failing = s.failing := by
  unfold cacheSet dbSet
  by_cases h : s.failing = true <;> simp [h]

theorem cacheGet_after_set (s : Store) (k : String) (v : CacheValue) (h : s.failing = false) :
    cacheGet (cacheSet s k v).1 k = some v := by
  simp [cacheSet, dbSet, h, cacheGet, dbGet, lookupEntry, List.find?]

/-- C6 counterexample: for a page whose document-control status is
`Rejected`, two consecutive `process_page` invocations at the same version
produce *zero* publish batches and *zero* cache upserts — not exactly one —
while still returning success. -/
theorem claim_C6_counterexample :
    processPage cfg0 emptyStore pageC5 = ({ ok := true, batch := none, write := none }, emptyStore) ∧
    processPage cfg0 (processPage cfg0 emptyStore pageC5).2 pageC5 =
      ({ ok := true, batch := none, write := none }, emptyStore) := by decide

/-- C6 amended.  Idempotence per version holds for runs that actually
publish: when forced reprocessing is off, the store is functioning, the
version gate is open and the extracted status passes the gate, the first
invocation publishes exactly one batch and performs exactly one cache
upsert, and the second invocation with the same page and version publishes
nothing, writes nothing, and returns success as a no-op skip. -/
theorem claim_C6_amended (cfg : Config) (store : Store) (page : Page)
    (hforce : cfg.forceReindex = false)
    (hpub : cfg.publishOk = true)
    (hfail : store.failing = false)
    (hgate : versionGateSkip cfg store page = false)
    (hstatus : statusApproved (extractMetadata page) = true) :
    ∃ docs entry,
      processPage cfg store page =
        ({ ok := true, batch := some docs, write := some entry }, (cacheSet store page.id entry).1) ∧
      entry.version = page.version ∧
      processPage cfg (processPage cfg store page).2 page =
        ({ ok := true, batch := none, write := none }, (processPage cfg store page).2) := by
  have hstep := processPage_publishes cfg store page hgate hstatus hpub
  refine ⟨_, _, hstep, rfl, ?_⟩
  apply processPage_gate_skips
  unfold versionGateSkip
  rw [hstep]
  simp only
  rw [cacheGet_after_set store page.id _ hfail, hforce]
  simp

def pageC2 : Page :=
  { id := "p2", version := 1,
    body := [Node.heading 1 "1 Scope" "<h1>1 Scope</h1>", Node.elem "p" "Body FR-ABC-001"],
    tables := [[["Document Control", ""], ["Status", "APPROVED"]]] }

theorem claim_C6_witness :
    ∃ docs entry,
      processPage cfg0 emptyStore pageC2 =
        ({ ok := true, batch := some docs, write := some entry }, (cacheSet emptyStore pageC2.id entry).1) ∧
      entry.version = pageC2.version ∧
      processPage cfg0 (processPage cfg0 emptyStore pageC2).2 pageC2 =
        ({ ok := true, batch := none, write := none }, (processPage cfg0 emptyStore pageC2).2) :=
  claim_C6_amended cfg0 emptyStore pageC2 rfl rfl rfl (by decide) (by decide)

/-! ## Claim C2: cache-version invariant and monotonic gating -/

/-- The status component of `extractMetadata` through the selected table. -/
def tableStatus (tables : List MetaTable) : String :=
  match findMetadataTable tables with
  | some t => (t.foldl applyRow {}).status
  | none => ""

theorem defaultDocId_status (page : Page) (m : DocumentMetadata) :
    (defaultDocId page m).status = m.status := by
  unfold defaultDocId; split <;> rfl

theorem defaultVersion_status (page : Page) (m : DocumentMetadata) :
    (defaultVersion page m).status = m.status := by
  unfold defaultVersion; split <;> rfl

theorem defaultCreated_status (page : Page) (m : DocumentMetadata) :
    (defaultCreated page m).status = m.status := by
  unfold defaultCreated; split <;> [split <;> rfl; rfl]

theorem defaultUpdated_status (page : Page) (m : DocumentMetadata) :
    (defaultUpdated page m).status = m.status := by
  unfold defaultUpdated; split <;> [split <;> rfl; rfl]

theorem defaultOwner_status (page : Page) (m : DocumentMetadata) :
    (defaultOwner page m).status = m.status := by
  unfold defaultOwner; split <;> [split <;> rfl; rfl]

theorem defaultStatus_status (m : DocumentMetadata) :
    (defaultStatus m).status = if m.status = "" then "UNKNOWN" else m.status := by
  unfold defaultStatus; split <;> simp_all

theorem extractMetadata_status (page : Page) :
    (extractMetadata page).status =
      if tableStatus page.tables = "" then "UNKNOWN" else tableStatus page.tables := by
  unfold extractMetadata tableStatus
  rw [defaultOwner_status, defaultUpdated_status, defaultCreated_status, defaultStatus_status,
    defaultVersion_status, defaultDocId_status]
  cases ht : findMetadataTable page.tables <;> simp [ht]

/-- The status gate does not depend on the page's version: `pageAt` changes
only the `version` field and the extracted status never reads it. -/
theorem statusApproved_pageAt (base : Page) (v : Nat) :
    statusApproved (extractMetadata (pageAt base v)) = statusApproved (extractMetadata base) := by
  unfold statusApproved
  rw [extractMetadata_status, extractMetadata_status]
  rfl

/-- The pure gate dynamics: the cached version (if any) against a stream of
current versions, returning the final cached version and the versions that
get (re)published. -/
def simGate : Option Nat → List Nat → Option Nat × List Nat
  | c, [] => (c, [])
  | some w, v :: vs =>
    if v ≤ w then simGate (some w) vs
    else ((simGate (some v) vs).1, v :: (simGate (some v) vs).2)
  | none, v :: vs => ((simGate (some v) vs).1, v :: (simGate (some v) vs).2)

theorem simGate_props : ∀ (vs : List Nat) (c : Option Nat),
    List.Pairwise (· < ·) (simGate c vs).2 ∧
    (∀ w, c = some w → ∀ x ∈ (simGate c vs).2, w < x) ∧
    ((simGate c vs).2 = [] → (simGate c vs).1 = c) ∧
    ((simGate c vs).2 ≠ [] → ∃ vmax, (simGate c vs).1 = some vmax ∧
       vmax ∈ (simGate c vs).2 ∧ ∀ x ∈ (simGate c vs).2, x ≤ vmax) := by
  intro vs
  induction vs with
  | nil =>
    intro c
    simp [simGate]
  | cons v vs ih =>
    intro c
    cases c with
    | none =>
      have h := ih (some v)
      simp only [simGate]
      refine ⟨?_, ?_, ?_, ?_⟩
      · exact List.pairwise_cons.mpr ⟨h.2.1 v rfl, h.1⟩
      · intro w hw; exact Option.noConfusion hw
      · intro hnil; exact absurd hnil (by simp)
      · intro _
        by_cases hp : (simGate (some v) vs).2 = []
        · refine ⟨v, h.2.2.1 hp, List.mem_cons_self v _, ?_⟩
          intro x hx
          rcases List.mem_cons.mp hx with hx | hx
          · subst hx; exact Nat.le_refl _
          · rw [hp] at hx; exact absurd hx (List.not_mem_nil x)
        · obtain ⟨vmax, h1, h2, h3⟩ := h.2.2.2 hp
          refine ⟨vmax, h1, List.mem_cons_of_mem v h2, ?_⟩
          intro x hx
          rcases List.mem_cons.mp hx with hx | hx
          · subst hx; exact Nat.le_of_lt (h.2.1 _ rfl vmax h2)
          · exact h3 x hx
    | some w =>
      by_cases hle : v ≤ w
      · have h := ih (some w)
        simp only [simGate, if_pos hle]
        exact h
      · have h := ih (some v)
        simp only [simGate, if_neg hle]
        have hwv : w < v := by omega
        refine ⟨?_, ?_, ?_, ?_⟩
        · exact List.pairwise_cons.mpr ⟨h.2.1 v rfl, h.1⟩
        · intro w' hw' x hx
          cases hw'
          rcases List.mem_cons.mp hx with hx | hx
          · subst hx; exact hwv
          · exact Nat.lt_trans hwv (h.2.1 v rfl x hx)
        · intro hnil; exact absurd hnil (by simp)
        · intro _
          by_cases hp : (simGate (some v) vs).2 = []
          · refine ⟨v, h.2.2.1 hp, List.mem_cons_self v _, ?_⟩
            intro x hx
            rcases List.mem_cons.mp hx with hx | hx
            · subst hx; exact Nat.le_refl _
            · rw [hp] at hx; exact absurd hx (List.not_mem_nil x)
          · obtain ⟨vmax, h1, h2, h3⟩ := h.2.2.2 hp
            refine ⟨vmax, h1, List.mem_cons_of_mem v h2, ?_⟩
            intro x hx
            rcases List.mem_cons.mp hx with hx | hx
            · subst hx; exact Nat.le_of_lt (h.2.1 _ rfl vmax h2)
            · exact h3 x hx

/-- The cache value upserted after successfully processing `page`
(processor.py:192-198). -/
def entryFor (cfg : Config) (page : Page) : CacheValue :=
  { version := page.version, metadata := extractMetadata page,
    document_count := (assembleDocuments cfg page (extractMetadata page)).length,
    vectorized := cfg.vectorize }

/-- `runVersions` refines `simGate`: under a functioning store, no forced
reprocessing, a passing status and a succeeding publish call, the published
versions and the final cached version of the real orchestrator are those of
the pure gate dynamics. -/
theorem runVersions_refines (cfg : Config) (base : Page)
    (hforce : cfg.forceReindex = false) (hpub : cfg.publishOk = true)
    (hstatus : statusApproved (extractMetadata base) = true) :
    ∀ (vs : List Nat) (store : Store), store.failing = false →
      (runVersions cfg base store vs).2 =
        (simGate ((cacheGet store base.id).map CacheValue.version) vs).2 ∧
      (runVersions cfg base store vs).1.failing = false ∧
      (cacheGet (runVersions cfg base store vs).1 base.id).map CacheValue.version =
        (simGate ((cacheGet store base.id).map CacheValue.version) vs).1 := by
  intro vs
  induction vs with
  | nil =>
    intro store hs
    exact ⟨by simp [runVersions, simGate], by simpa [runVersions] using hs,
      by simp [runVersions, simGate]⟩
  | cons v vs ih =>
    intro store hs
    cases hc : cacheGet store base.id with
    | some e =>
      by_cases hle : v ≤ e.version
      · have hgate : versionGateSkip cfg store (pageAt base v) = true := by
          unfold versionGateSkip
          show (match cacheGet store base.id with
            | some cached => !cfg.forceReindex && decide (v ≤ cached.version)
            | none => false) = true
          rw [hc, hforce]
          simp [hle]
        have hstep := processPage_gate_skips cfg store (pageAt base v) hgate
        have hrec := ih store hs
        rw [hc] at hrec
        simp only [runVersions, hstep, Option.isSome_none, Bool.false_eq_true, if_false,
          List.nil_append, hc, Option.map_some']
        simp only [simGate, if_pos hle]
        exact hrec
      · have hgate : versionGateSkip cfg store (pageAt base v) = false := by
          unfold versionGateSkip
          show (match cacheGet store base.id with
            | some cached => !cfg.forceReindex && decide (v ≤ cached.version)
            | none => false) = false
          rw [hc]
          simp [hle]
        have hstatus' : statusApproved (extractMetadata (pageAt base v)) = true := by
          rw [statusApproved_pageAt]; exact hstatus
        have hstep : processPage cfg store (pageAt base v) =
            ({ ok := true,
               batch := some (assembleDocuments cfg (pageAt base v) (extractMetadata (pageAt base v))),
               write := some (entryFor cfg (pageAt base v)) },
             (cacheSet store base.id (entryFor cfg (pageAt base v))).1) :=
          processPage_publishes cfg store (pageAt base v) hgate hstatus' hpub
        have hs1fail : ((cacheSet store base.id (entryFor cfg (pageAt base v))).1).failing = false := by
          rw [cacheSet_failing]; exact hs
        have hs1get := cacheGet_after_set store base.id (entryFor cfg (pageAt base v)) hs
        have hrec := ih _ hs1fail
        rw [hs1get] at hrec
        simp only [Option.map_some'] at hrec
        have hver : (entryFor cfg (pageAt base v)).version = v := rfl
        rw [hver] at hrec
        simp only [runVersions, hstep, Option.isSome_some, if_true, List.singleton_append,
          hc, Option.map_some']
        simp only [simGate, if_neg hle]
        exact ⟨by rw [hrec.1], hrec.2.1, by rw [hrec.2.2]⟩
    | none =>
      have hgate : versionGateSkip cfg store (pageAt base v) = false := by
        unfold versionGateSkip
        show (match cacheGet store base.id with
          | some cached => !cfg.forceReindex && decide (v ≤ cached.version)
          | none => false) = false
        rw [hc]
      have hstatus' : statusApproved (extractMetadata (pageAt base v)) = true := by
        rw [statusApproved_pageAt]; exact hstatus
      have hstep : processPage cfg store (pageAt base v) =
          ({ ok := true,
             batch := some (assembleDocuments cfg (pageAt base v) (extractMetadata (pageAt base v))),
             write := some (entryFor cfg (pageAt base v)) },
           (cacheSet store base.id (entryFor cfg (pageAt base v))).1) :=
        processPage_publishes cfg store (pageAt base v) hgate hstatus' hpub
      have hs1fail : ((cacheSet store base.id (entryFor cfg (pageAt base v))).1).failing = false := by
        rw [cacheSet_failing]; exact hs
      have hs1get := cacheGet_after_set store base.id (entryFor cfg (pageAt base v)) hs
      have hrec := ih _ hs1fail
      rw [hs1get] at hrec
      simp only [Option.map_some'] at hrec
      have hver : (entryFor cfg (pageAt base v)).version = v := rfl
      rw [hver] at hrec
      simp only [runVersions, hstep, Option.isSome_some, if_true, List.singleton_append,
        hc, Option.map_none']
      simp only [simGate]
      exact ⟨by rw [hrec.1], hrec.2.1, by rw [hrec.2.2]⟩

/-- C2.  Cache-version invariant and monotonic gating: starting from a
functioning store with no cache record for the page, with forced
reprocessing off, a passing status gate and a succeeding publish call, any
sequence of `process_page` invocations publishes a strictly increasing (in
particular duplicate-free) sequence of versions, and afterwards the cache
record for the page holds exactly the highest version successfully
published (and is absent when nothing was published); in particular
processing versions in the order `v1, v3, v2` with `v1 < v2 < v3` publishes
`v1` and `v3`, skips `v2`, and leaves `v3` cached. -/
theorem claim_C2_cache_invariant (cfg : Config) (base : Page) (store : Store)
    (hforce : cfg.forceReindex = false) (hpub : cfg.publishOk = true)
    (hfail : store.failing = false) (hempty : cacheGet store base.id = none)
    (hstatus : statusApproved (extractMetadata base) = true) :
    (∀ vs : List Nat,
      List.Pairwise (· < ·) (runVersions cfg base store vs).2 ∧
      (runVersions cfg base store vs).2.Nodup ∧
      ((runVersions cfg base store vs).2 = [] →
        cacheGet (runVersions cfg base store vs).1 base.id = none) ∧
      ((runVersions cfg base store vs).2 ≠ [] →
        ∃ e, cacheGet (runVersions cfg base store vs).1 base.id = some e ∧
          e.version ∈ (runVersions cfg base store vs).2 ∧
          ∀ x ∈ (runVersions cfg base store vs).2, x ≤ e.version)) ∧
    (∀ v1 v2 v3 : Nat, v1 < v2 → v2 < v3 →
      (runVersions cfg base store [v1, v3, v2]).2 = [v1, v3] ∧
      (cacheGet (runVersions cfg base store [v1, v3, v2]).1 base.id).map CacheValue.version =
        some v3) := by
  have href := runVersions_refines cfg base hforce hpub hstatus
  constructor
  · intro vs
    have h := href vs store hfail
    rw [hempty] at h
    simp only [Option.map_none'] at h
    have hprops := simGate_props vs none
    rw [← h.1] at hprops
    refine ⟨hprops.1, hprops.1.imp (fun hlt => Nat.ne_of_lt hlt), ?_, ?_⟩
    · intro hnil
      have h1 := hprops.2.2.1 hnil
      rw [← h.2.2] at h1
      cases hcg : cacheGet (runVersions cfg base store vs).1 base.id with
      | none => rfl
      | some e => rw [hcg] at h1; exact Option.noConfusion h1
    · intro hne
      obtain ⟨vmax, h1, h2, h3⟩ := hprops.2.2.2 hne
      rw [← h.2.2] at h1
      cases hcg : cacheGet (runVersions cfg base store vs).1 base.id with
      | none => rw [hcg] at h1; exact Option.noConfusion h1
      | some e =>
        rw [hcg] at h1
        simp only [Option.map_some', Option.some.injEq] at h1
        exact ⟨e, rfl, h1 ▸ h2, fun x hx => h1 ▸ h3 x hx⟩
  · intro v1 v2 v3 h12 h23
    have h := href [v1, v3, v2] store hfail
    rw [hempty] at h
    simp only [Option.map_none'] at h
    have hsim2 : (simGate none [v1, v3, v2]).2 = [v1, v3] := by
      simp only [simGate]
      rw [if_neg (by omega), if_pos (by omega)]
    have hsim1 : (simGate none [v1, v3, v2]).1 = some v3 := by
      simp only [simGate]
      rw [if_neg (by omega), if_pos (by omega)]
    exact ⟨by rw [h.1, hsim2], by rw [h.2.2, hsim1]⟩

theorem claim_C2_witness :
    (runVersions cfg0 pageC2 emptyStore [1, 3, 2]).2 = [1, 3] ∧
    (cacheGet (runVersions cfg0 pageC2 emptyStore [1, 3, 2]).1 pageC2.id).map CacheValue.version =
      some 3 :=
  (claim_C2_cache_invariant cfg0 pageC2 emptyStore rfl rfl rfl rfl (by decide)).2 1 2 3
    (by decide) (by decide)

/-! ## Claim C8: cache error absorption -/

/-- C8.  On a failing store every cache operation surfaces the storage error
as a benign negative result — `get` returns absent, `set` and `delete`
return `false` (leaving the store unchanged), `clear` returns `0`, key
listing returns `[]` — and never propagates it; consequently the version
gate never fires on a failing store, and the orchestrator treats the failed
`get` as "uncached" and processes the version (publishing a batch whenever
the status gate and the publish call allow it). -/
theorem claim_C8_cache_errors (store : Store) (hfail : store.failing = true) :
    (∀ k, cacheGet store k = none) ∧
    (∀ k v, cacheSet store k v = (store, false)) ∧
    (∀ k, cacheDelete store k = (store, false)) ∧
    cacheClear store = (store, 0) ∧
    cacheKeys store = [] ∧
    (∀ cfg page, versionGateSkip cfg store page = false) ∧
    (∀ cfg page, statusApproved (extractMetadata page) = true → cfg.publishOk = true →
      (processPage cfg store page).1.batch =
        some (assembleDocuments cfg page (extractMetadata page))) := by
  have hget : ∀ k, cacheGet store k = none := by
    intro k
    unfold cacheGet dbGet
    rw [hfail]
    rfl
  refine ⟨hget, ?_, ?_, ?_, ?_, ?_, ?_⟩
  · intro k v; unfold cacheSet dbSet; rw [hfail]; rfl
  · intro k; unfold cacheDelete dbDelete; rw [hfail]; rfl
  · unfold cacheClear dbClear; rw [hfail]; rfl
  · unfold cacheKeys dbKeys; rw [hfail]; rfl
  · intro cfg page
    unfold versionGateSkip
    rw [hget page.id]
  · intro cfg page hstatus hpub
    have hgate : versionGateSkip cfg store page = false := by
      unfold versionGateSkip
      rw [hget page.id]
    rw [processPage_publishes cfg store page hgate hstatus hpub]

def failStore : Store := { entries := [("p2", entry5)], failing := true }

theorem claim_C8_witness :
    cacheGet failStore "p2" = none ∧
    cacheSet failStore "p2" entry5 = (failStore, false) ∧
    cacheDelete failStore "p2" = (failStore, false) ∧
    cacheClear failStore = (failStore, 0) ∧
    cacheKeys failStore = [] ∧
    versionGateSkip cfg0 failStore pageC2 = false ∧
    (processPage cfg0 failStore pageC2).1.batch =
      some (assembleDocuments cfg0 pageC2 (extractMetadata pageC2)) := by
  have h := claim_C8_cache_errors failStore rfl
  exact ⟨h.1 "p2", h.2.1 "p2" entry5, h.2.2.1 "p2", h.2.2.2.1, h.2.2.2.2.1,
    h.2.2.2.2.2.1 cfg0 pageC2, h.2.2.2.2.2.2 cfg0 pageC2 (by decide) rfl⟩

/-! ## Claim C9: requirement-ID extraction -/

def docC9 : List Node := [Node.elem "p" "See FR-ABC-001"]

/-- C9 counterexample: a document with no headings yields the synthetic
"Main Content" section, which is constructed without scanning for
requirement IDs — its `requirement_ids` is `[]` even though its content
contains a match of the pattern, so `requirement_ids` is *not* the ordered
match list of the content for every section. -/
theorem claim_C9_counterexample :
    (splitContentIntoSections id docC9).map DocumentSection.requirement_ids = [[]] ∧
    (splitContentIntoSections id docC9).map DocumentSection.content = ["See FR-ABC-001"] ∧
    reqFindall "See FR-ABC-001" = ["FR-ABC-001"] := by decide

theorem buildSections_req (md : String → String) :
    ∀ (ps : List ((Nat × String) × List Node)) (i : Nat),
      ∀ s ∈ buildSections md i ps, s.requirement_ids = reqFindall s.content := by
  intro ps
  induction ps with
  | nil => intro i s hs; exact absurd hs (List.not_mem_nil s)
  | cons p rest ih =>
    intro i s hs
    obtain ⟨⟨lvl, text⟩, gap⟩ := p
    rcases List.mem_cons.mp hs with hs | hs
    · subst hs; rfl
    · exact ih (i + 1) s hs

/-- C9 amended.  For every document with at least one heading, every
produced section's `requirement_ids` is exactly the ordered list of
substrings of its content matching
`(FR|PR|SR|UR|RR|CR|BR|INT)-[A-Z0-9]+-\d{3}`, in order of appearance with
duplicates preserved; the synthetic section of a heading-less document
instead always carries an empty `requirement_ids`. -/
theorem claim_C9_amended (md : String → String) (doc : List Node)
    (h : pairHeadGaps doc ≠ []) :
    ∀ s ∈ splitContentIntoSections md doc, s.requirement_ids = reqFindall s.content := by
  intro s hs
  unfold splitContentIntoSections at hs
  rw [if_neg (by simpa using h)] at hs
  exact buildSections_req md (pairHeadGaps doc) 0 s hs

def docC9w : List Node :=
  [Node.heading 1 "Reqs" "<h1>Reqs</h1>",
   Node.elem "p" "See FR-ABC-001 and FR-ABC-001 again"]

theorem claim_C9_witness :
    ((splitContentIntoSections id docC9w).map DocumentSection.requirement_ids =
      [["FR-ABC-001", "FR-ABC-001"]]) ∧
    (∀ s ∈ splitContentIntoSections id docC9w, s.requirement_ids = reqFindall s.content) :=
  ⟨by decide, claim_C9_amended id docC9w (by decide)⟩

/-! ## Claim C10: bare text between headings is dropped -/

def docC10 : List Node :=
  [Node.heading 1 "A" "<h1>A</h1>", Node.textNode "lost text",
   Node.heading 1 "B" "<h1>B</h1>", Node.elem "p" "kept"]

/-- C10.  A section's content elements are collected only from tagged
sibling elements whose name is not a heading tag; a bare text node has no
tag name and contributes nothing (`Node.contentStr` is `none` on it), so
for the concrete document with the text `lost text` lying directly between
two headings, that text appears in no section's content. -/
theorem claim_C10_text_dropped :
    (∀ s : String, Node.contentStr (Node.textNode s) = none) ∧
    (splitContentIntoSections id docC10).map DocumentSection.content = ["", "kept"] ∧
    (splitContentIntoSections id docC10).all
      (fun s => !containsSub s.content "lost") = true :=
  ⟨fun _ => rfl, by decide, by decide⟩

/-! ## Claim C7: the flat section boundary rule -/

/-- The positions (indices into the node list) of the headings, in document
order. -/
def headingPositions : List Node → List Nat
  | [] => []
  | n :: rest =>
    if n.isHeadingNode then 0 :: (headingPositions rest).map (· + 1)
    else (headingPositions rest).map (· + 1)

/-- The index of the first heading — of any level — in a node list, or the
list's length when it contains none. -/
def nextHeadIdx : List Node → Nat
  | [] => 0
  | n :: rest => if n.isHeadingNode then 0 else nextHeadIdx rest + 1

theorem nextHeadIdx_spec : ∀ (l : List Node),
    (∀ j, j < nextHeadIdx l → ∃ n, l.get? j = some n ∧ n.isHeadingNode = false) ∧
    (nextHeadIdx l = l.length ∨
      ∃ n, l.get? (nextHeadIdx l) = some n ∧ n.isHeadingNode = true) := by
  intro l
  induction l with
  | nil => exact ⟨fun j hj => absurd hj (by simp [nextHeadIdx]), Or.inl rfl⟩
  | cons n rest ih =>
    by_cases hn : n.isHeadingNode = true
    · refine ⟨?_, Or.inr ⟨n, ?_, hn⟩⟩
      · intro j hj
        rw [nextHeadIdx, if_pos hn] at hj
        exact absurd hj (Nat.not_lt_zero j)
      · rw [nextHeadIdx, if_pos hn]
        rfl
    · simp only [Bool.not_eq_true] at hn
      refine ⟨?_, ?_⟩
      · intro j hj
        rw [nextHeadIdx, if_neg (by simp [hn])] at hj
        cases j with
        | zero => exact ⟨n, rfl, hn⟩
        | succ j' =>
          have := ih.1 j' (Nat.lt_of_succ_lt_succ hj)
          simpa using this
      · rw [nextHeadIdx, if_neg (by simp [hn])]
        rcases ih.2 with h | ⟨m, hm, hh⟩
        · left; simp [h]
        · right; exact ⟨m, by simpa using hm, hh⟩

/-- On a node list without empty text nodes (as produced by parsing real
markup: bs4 never emits an empty `NavigableString`), the sibling walk runs
exactly up to — and excluding — the next heading of any level. -/
theorem gapAfter_eq_take (l : List Node)
    (hwf : ∀ s, Node.textNode s ∈ l → ¬ s = "") :
    gapAfter l = l.take (nextHeadIdx l) := by
  induction l with
  | nil => rfl
  | cons n rest ih =>
    by_cases hn : n.isHeadingNode = true
    · unfold gapAfter nextHeadIdx
      rw [if_pos hn]
      simp [List.takeWhile_cons, hn]
    · simp only [Bool.not_eq_true] at hn
      have htruthy : n.truthy = true := by
        cases n with
        | heading lvl text raw => rfl
        | elem tag raw => rfl
        | textNode s =>
          have hs : ¬ s = "" := hwf s (List.mem_cons_self _ _)
          unfold Node.truthy
          have hne : ¬ s.isEmpty = true := fun hc => hs ((String.isEmpty_iff s).mp hc)
          simp only [Bool.not_eq_true] at hne
          simp [hne]
      unfold gapAfter nextHeadIdx
      rw [if_neg (by simp [hn])]
      simp only [List.takeWhile_cons, htruthy, hn, Bool.not_false, Bool.and_self, if_true,
        List.take_succ_cons]
      exact congrArg (n :: ·) (ih fun s hs => hwf s (List.mem_cons_of_mem n hs))

theorem pairHeadGaps_get : ∀ (doc : List Node) (i p : Nat),
    (headingPositions doc).get? i = some p →
    ∃ lvl text raw,
      doc.get? p = some (Node.heading lvl text raw) ∧
      (pairHeadGaps doc).get? i = some ((lvl, text), gapAfter (doc.drop (p + 1))) := by
  intro doc
  induction doc with
  | nil => intro i p h; exact Option.noConfusion h
  | cons n rest ih =>
    intro i p h
    cases n with
    | heading lvl text raw =>
      simp only [headingPositions, Node.isHeadingNode, if_true] at h
      cases i with
      | zero =>
        cases h
        exact ⟨lvl, text, raw, rfl, rfl⟩
      | succ i' =>
        rw [List.get?_cons_succ, List.get?_map] at h
        cases hp : (headingPositions rest).get? i' with
        | none => rw [hp] at h; exact Option.noConfusion h
        | some p' =>
          rw [hp] at h
          simp only [Option.map_some', Option.some.injEq] at h
          subst h
          obtain ⟨lvl', text', raw', h1, h2⟩ := ih i' p' hp
          exact ⟨lvl', text', raw', by simpa using h1, by simpa [pairHeadGaps] using h2⟩
    | elem tag raw =>
      simp only [headingPositions, Node.isHeadingNode, Bool.false_eq_true, if_false] at h
      rw [List.get?_map] at h
      cases hp : (headingPositions rest).get? i with
      | none => rw [hp] at h; exact Option.noConfusion h
      | some p' =>
        rw [hp] at h
        simp only [Option.map_some', Option.some.injEq] at h
        subst h
        obtain ⟨lvl', text', raw', h1, h2⟩ := ih i p' hp
        exact ⟨lvl', text', raw', by simpa using h1, by simpa [pairHeadGaps] using h2⟩
    | textNode s =>
      simp only [headingPositions, Node.isHeadingNode, Bool.false_eq_true, if_false] at h
      rw [List.get?_map] at h
      cases hp : (headingPositions rest).get? i with
      | none => rw [hp] at h; exact Option.noConfusion h
      | some p' =>
        rw [hp] at h
        simp only [Option.map_some', Option.some.injEq] at h
        subst h
        obtain ⟨lvl', text', raw', h1, h2⟩ := ih i p' hp
        exact ⟨lvl', text', raw', by simpa using h1, by simpa [pairHeadGaps] using h2⟩

theorem buildSections_get (md : String → String) :
    ∀ (ps : List ((Nat × String) × List Node)) (k i : Nat),
      (buildSections md k ps).get? i =
        (ps.get? i).map (fun q => mkSection md (k + i) q.1.1 q.1.2 q.2) := by
  intro ps
  induction ps with
  | nil => intro k i; cases i <;> rfl
  | cons q rest ih =>
    intro k i
    obtain ⟨⟨lvl, text⟩, gap⟩ := q
    cases i with
    | zero => simp [buildSections]
    | succ i' =>
      simp only [buildSections, List.get?_cons_succ]
      rw [ih (k + 1) i']
      have hk : k + 1 + i' = k + (i' + 1) := by omega
      simp only [hk]

/-- C7.  Flat section boundary rule: for the `i`-th heading of a document
(at node position `p`; the document has no empty text nodes, as none arise
from parsing real markup), the produced section's content is the normalized
concatenation of the tagged non-heading elements among the nodes strictly
after the heading and strictly before the *next heading of any level* (or
the end of the siblings when no heading follows) — where `nextHeadIdx` is
the index of the first following heading regardless of its level. -/
theorem claim_C7_boundary (md : String → String) (doc : List Node)
    (hwf : ∀ s, Node.textNode s ∈ doc → ¬ s = "")
    (i p : Nat) (hp : (headingPositions doc).get? i = some p) :
    ∃ lvl text raw,
      doc.get? p = some (Node.heading lvl text raw) ∧
      (∀ j, j < nextHeadIdx (doc.drop (p + 1)) →
        ∃ n, (doc.drop (p + 1)).get? j = some n ∧ n.isHeadingNode = false) ∧
      (nextHeadIdx (doc.drop (p + 1)) = (doc.drop (p + 1)).length ∨
        ∃ n, (doc.drop (p + 1)).get? (nextHeadIdx (doc.drop (p + 1))) = some n ∧
          n.isHeadingNode = true) ∧
      ((splitContentIntoSections md doc).get? i).map DocumentSection.content =
        some (md (String.join
          (((doc.drop (p + 1)).take (nextHeadIdx (doc.drop (p + 1)))).filterMap
            Node.contentStr))) := by
  obtain ⟨lvl, text, raw, h1, h2⟩ := pairHeadGaps_get doc i p hp
  refine ⟨lvl, text, raw, h1, (nextHeadIdx_spec _).1, (nextHeadIdx_spec _).2, ?_⟩
  have hne : pairHeadGaps doc ≠ [] := by
    intro hc
    rw [hc] at h2
    cases i <;> exact Option.noConfusion h2
  unfold splitContentIntoSections
  rw [if_neg (by simpa using hne)]
  rw [buildSections_get md (pairHeadGaps doc) 0 i, h2]
  simp only [Option.map_some']
  have hgap : gapAfter (doc.drop (p + 1)) =
      (doc.drop (p + 1)).take (nextHeadIdx (doc.drop (p + 1))) :=
    gapAfter_eq_take _ (fun s hs => hwf s (List.mem_of_mem_drop hs))
  rw [← hgap]
  rfl

def docC7 : List Node :=
  [Node.heading 1 "1 Scope" "<h1>1 Scope</h1>", Node.elem "p" "scope-intro",
   Node.heading 2 "1.1 Detail" "<h2>1.1 Detail</h2>", Node.elem "p" "detail",
   Node.heading 1 "2 Design" "<h1>2 Design</h1>"]

theorem claim_C7_witness :
    ((splitContentIntoSections id docC7).get? 0).map DocumentSection.content =
      some "scope-intro" := by
  have h := claim_C7_boundary id docC7 (by intro s hs; simp [docC7] at hs) 0 0 (by decide)
  obtain ⟨lvl, text, raw, h1, h2, h3, h4⟩ := h
  rw [h4]
  decide

/-! ## Claim C4: identifier uniqueness.  The identifiers of processor.py:131
and 163 are `{page_id}_v{current_version}_{full|section_id}`; the version is
an integer rendered in decimal, so the segment between `_v` and the next `_`
determines the version uniquely. -/

/-- Decimal digit characters of a natural number, most significant first
(the reference rendering that `Nat.repr` is proved to agree with). -/
def natChars (n : Nat) : List Char :=
  if n < 10 then [Nat.digitChar n]
  else natChars (n / 10) ++ [Nat.digitChar (n % 10)]
decreasing_by
  exact Nat.div_lt_self (by omega) (by omega)

theorem digitChar_isDigit (k : Nat) (h : k < 10) : (Nat.digitChar k).isDigit = true := by
  interval_cases k <;> decide

theorem digitChar_toNat (k : Nat) (h : k < 10) : (Nat.digitChar k).toNat = 48 + k := by
  interval_cases k <;> decide

/-- Evaluate a decimal digit string back to its value. -/
def charsVal (l : List Char) : Nat :=
  l.foldl (fun a c => a * 10 + (c.toNat - 48)) 0

theorem charsVal_natChars (n : Nat) : charsVal (natChars n) = n := by
  induction n using Nat.strong_induction_on with
  | _ n ih =>
    rw [natChars]
    split
    · rename_i h
      show charsVal [Nat.digitChar n] = n
      simp [charsVal, digitChar_toNat n h]
    · rename_i h
      rw [charsVal, List.foldl_append]
      have hlt : n / 10 < n := Nat.div_lt_self (by omega) (by omega)
      have hih := ih (n / 10) hlt
      rw [charsVal] at hih
      simp only [List.foldl_cons, List.foldl_nil]
      rw [hih, digitChar_toNat (n % 10) (Nat.mod_lt n (by omega))]
      omega

theorem natChars_digits (n : Nat) : ∀ c ∈ natChars n, c.isDigit = true := by
  induction n using Nat.strong_induction_on with
  | _ n ih =>
    rw [natChars]
    split
    · rename_i h
      intro c hc
      simp only [List.mem_singleton] at hc
      subst hc
      exact digitChar_isDigit n h
    · rename_i h
      intro c hc
      rcases List.mem_append.mp hc with hc | hc
      · exact ih (n / 10) (Nat.div_lt_self (by omega) (by omega)) c hc
      · simp only [List.mem_singleton] at hc
        subst hc
        exact digitChar_isDigit (n % 10) (Nat.mod_lt n (by omega))

theorem natChars_injective (a b : Nat) (h : natChars a = natChars b) : a = b := by
  have hv := congrArg charsVal h
  rwa [charsVal_natChars, charsVal_natChars] at hv

theorem toDigitsCore_eq_natChars : ∀ (f n : Nat) (acc : List Char), n < f →
    Nat.toDigitsCore 10 f n acc = natChars n ++ acc := by
  intro f
  induction f with
  | zero => intro n acc h; exact absurd h (Nat.not_lt_zero n)
  | succ f ih =>
    intro n acc h
    rw [Nat.toDigitsCore]
    by_cases h10 : n / 10 = 0
    · rw [if_pos h10]
      have hn : n < 10 := by omega
      rw [natChars, if_pos hn, Nat.mod_eq_of_lt hn]
      rfl
    · rw [if_neg h10]
      have hlt : n / 10 < f := by
        have hself : n / 10 < n := Nat.div_lt_self (by omega) (by omega)
        omega
      have hn : natChars n = natChars (n / 10) ++ [Nat.digitChar (n % 10)] := by
        rw [natChars, if_neg (by omega)]
      rw [ih (n / 10) _ hlt, hn]
      simp [List.append_assoc]

theorem toString_nat_data (n : Nat) : (toString n).data = natChars n := by
  show (Nat.toDigits 10 n).asString.data = natChars n
  rw [Nat.toDigits, toDigitsCore_eq_natChars (n + 1) n [] (Nat.lt_succ_self n)]
  simp [List.asString]

/-- Unique splitting at the separator: two all-digit runs followed by `_`
and arbitrary tails coincide segment-wise. -/
theorem digit_split_unique : ∀ (l1 l2 x y : List Char),
    (∀ c ∈ l1, c.isDigit = true) → (∀ c ∈ l2, c.isDigit = true) →
    l1 ++ '_' :: x = l2 ++ '_' :: y → l1 = l2 ∧ x = y := by
  intro l1
  induction l1 with
  | nil =>
    intro l2 x y _ h2 heq
    cases l2 with
    | nil =>
      simp only [List.nil_append, List.cons.injEq] at heq
      exact ⟨rfl, heq.2⟩
    | cons c cs =>
      simp only [List.nil_append, List.cons_append, List.cons.injEq] at heq
      have hc := h2 c (List.mem_cons_self c cs)
      rw [← heq.1] at hc
      exact absurd hc (by decide)
  | cons c cs ih =>
    intro l2 x y h1 h2 heq
    cases l2 with
    | nil =>
      simp only [List.nil_append, List.cons_append, List.cons.injEq] at heq
      have hc := h1 c (List.mem_cons_self c cs)
      rw [heq.1] at hc
      exact absurd hc (by decide)
    | cons d ds =>
      simp only [List.cons_append, List.cons.injEq] at heq
      obtain ⟨hcd, hrest⟩ := heq
      obtain ⟨hl, hxy⟩ := ih ds x y (fun c hc => h1 c (List.mem_cons_of_mem _ hc))
        (fun c hc => h2 c (List.mem_cons_of_mem _ hc)) hrest
      exact ⟨by rw [hcd, hl], hxy⟩

/-- Injectivity of the published record identifiers in the version and part
segments, for a fixed page id. -/
theorem recordId_inj (p : String) (v1 v2 : Nat) (x y : String)
    (h : p ++ "_v" ++ toString v1 ++ "_" ++ x = p ++ "_v" ++ toString v2 ++ "_" ++ y) :
    v1 = v2 ∧ x = y := by
  have hd := congrArg String.data h
  simp only [String.data_append, List.append_assoc, List.cons_append, List.nil_append,
    List.singleton_append] at hd
  have hd2 := List.append_cancel_left hd
  have hd3 : (toString v1).data ++ '_' :: x.data = (toString v2).data ++ '_' :: y.data := by
    simpa using hd2
  have hsplit := digit_split_unique ((toString v1).data) ((toString v2).data) x.data y.data
    (by rw [toString_nat_data]; exact natChars_digits v1)
    (by rw [toString_nat_data]; exact natChars_digits v2) hd3
  refine ⟨?_, String.ext hsplit.2⟩
  apply natChars_injective
  rw [← toString_nat_data, ← toString_nat_data, hsplit.1]

/-- The canonical shape of a published record identifier:
`{pageId}_v{version}_{part}` with part `full` or a section id. -/
def recordId (pid : String) (v : Nat) (part : String) : String :=
  pid ++ "_v" ++ toString v ++ "_" ++ part

theorem mkFullDoc_id (cfg : Config) (page : Page) (m : DocumentMetadata) (mc sm : String) :
    (mkFullDoc cfg page m mc sm).id = recordId page.id page.version "full" := by
  show page.id ++ "_v" ++ toString page.version ++ "_full" =
    page.id ++ "_v" ++ toString page.version ++ "_" ++ "full"
  apply String.ext
  simp only [String.data_append, List.append_assoc]
  rfl

theorem mkSectionDoc_id (cfg : Config) (page : Page) (m : DocumentMetadata)
    (s : DocumentSection) :
    (mkSectionDoc cfg page m s).id = recordId page.id page.version s.section_id := rfl

theorem buildSections_sid (md : String → String) :
    ∀ (ps : List ((Nat × String) × List Node)) (i : Nat),
      ∀ s ∈ buildSections md i ps, ∃ t, s.section_id = "section_" ++ t := by
  intro ps
  induction ps with
  | nil => intro i s hs; exact absurd hs (List.not_mem_nil s)
  | cons q rest ih =>
    intro i s hs
    obtain ⟨⟨lvl, text⟩, gap⟩ := q
    rcases List.mem_cons.mp hs with hs | hs
    · subst hs
      unfold mkSection
      by_cases h : (headingNumSplit (trimStr text)).1.isEmpty = true
      · exact ⟨toString (i + 1), by simp [h]⟩
      · refine ⟨String.mk ((headingNumSplit (trimStr text)).1.data.map
          fun c => if c = '.' then '_' else c), by simp [h]⟩
    · exact ih (i + 1) s hs

theorem sections_sid (md : String → String) (doc : List Node) :
    ∀ s ∈ splitContentIntoSections md doc, ∃ t, s.section_id = "section_" ++ t := by
  intro s hs
  unfold splitContentIntoSections at hs
  by_cases hp : (pairHeadGaps doc).isEmpty = true
  · simp only [hp, if_true, List.mem_singleton] at hs
    subst hs
    exact ⟨"1", rfl⟩
  · simp only [Bool.not_eq_true] at hp
    simp only [hp, Bool.false_eq_true, if_false] at hs
    exact buildSections_sid md (pairHeadGaps doc) 0 s hs

theorem full_ne_section (t : String) : ("full" : String) ≠ "section_" ++ t := by
  intro h
  have hd := congrArg String.data h
  rw [String.data_append] at hd
  have h1 : ("full" : String).data.head? = some 'f' := rfl
  have h2 : (("section_" : String).data ++ t.data).head? = some 's' := rfl
  have := h1 ▸ h2 ▸ congrArg List.head? hd
  exact absurd (Option.some.inj this) (by decide)

/-- Every record of an assembled batch carries a canonical identifier:
the full-document record's (`part = full`, `is_section = false`) or a
section record's (`part = section_id`, `is_section = true`). -/
theorem assembleDocuments_mem_id (cfg : Config) (page : Page) (m : DocumentMetadata) :
    ∀ d ∈ assembleDocuments cfg page m,
      (d.id = recordId page.id page.version "full" ∧ d.is_section = false) ∨
      (∃ s ∈ splitContentIntoSections cfg.md page.body,
        d.id = recordId page.id page.version s.section_id ∧ d.is_section = true) := by
  intro d hd
  unfold assembleDocuments at hd
  rcases List.mem_cons.mp hd with hd | hd
  · subst hd
    exact Or.inl ⟨mkFullDoc_id cfg page m _ _, rfl⟩
  · obtain ⟨s, hs, hds⟩ := List.mem_map.mp hd
    exact Or.inr ⟨s, hs, by rw [← hds]; rfl, by rw [← hds]; rfl⟩

def pageC4 : Page :=
  { id := "p4", version := 1,
    body := [Node.heading 1 "1 Scope" "<h1>1 Scope</h1>",
             Node.heading 1 "1 Overview" "<h1>1 Overview</h1>"],
    tables := [[["Document Control", ""], ["Status", "APPROVED"]]] }

/-- C4 counterexample: two headings with the same numeric prefix (`1 Scope`,
`1 Overview`) both get section id `section_1`, so the single batch published
for one version carries a duplicated identifier — the published identifiers
are *not* pairwise distinct within the batch. -/
theorem claim_C4_counterexample :
    ((processPage cfg0 emptyStore pageC4).1.batch.map (List.map SearchableDocument.id)) =
      some ["p4_v1_full", "p4_v1_section_1", "p4_v1_section_1"] ∧
    ¬ (["p4_v1_full", "p4_v1_section_1", "p4_v1_section_1"] : List String).Nodup := by
  constructor
  · decide
  · decide

/-- C4 amended.  Published identifiers embed page id, version and part, so:
(1) the batches of two runs of the same page at different versions share no
identifier (regardless of section-id collisions); (2) the full-document
record's identifier never equals a section record's; (3) within one batch
all identifiers are pairwise distinct *provided* the underlying section ids
are pairwise distinct — which can fail when two headings yield the same
section id (see the counterexample). -/
theorem claim_C4_amended (cfg cfg' : Config) (page : Page) (m m' : DocumentMetadata) :
    (∀ v1 v2 : Nat, v1 ≠ v2 →
      ∀ d1 ∈ assembleDocuments cfg (pageAt page v1) m,
      ∀ d2 ∈ assembleDocuments cfg' (pageAt page v2) m', d1.id ≠ d2.id) ∧
    (∀ d ∈ assembleDocuments cfg page m, d.is_section = true →
      d.id ≠ recordId page.id page.version "full") ∧
    (((splitContentIntoSections cfg.md page.body).map DocumentSection.section_id).Nodup →
      ((assembleDocuments cfg page m).map SearchableDocument.id).Nodup) := by
  refine ⟨?_, ?_, ?_⟩
  · intro v1 v2 hv d1 hd1 d2 hd2 heq
    have h1 := assembleDocuments_mem_id cfg (pageAt page v1) m d1 hd1
    have h2 := assembleDocuments_mem_id cfg' (pageAt page v2) m' d2 hd2
    have e1 : ∃ part1, d1.id = recordId page.id v1 part1 := by
      rcases h1 with ⟨h, _⟩ | ⟨s, _, h, _⟩
      · exact ⟨"full", h⟩
      · exact ⟨s.section_id, h⟩
    have e2 : ∃ part2, d2.id = recordId page.id v2 part2 := by
      rcases h2 with ⟨h, _⟩ | ⟨s, _, h, _⟩
      · exact ⟨"full", h⟩
      · exact ⟨s.section_id, h⟩
    obtain ⟨part1, hp1⟩ := e1
    obtain ⟨part2, hp2⟩ := e2
    rw [hp1, hp2] at heq
    exact hv (recordId_inj page.id v1 v2 part1 part2 heq).1
  · intro d hd hsec heq
    rcases assembleDocuments_mem_id cfg page m d hd with ⟨_, hfalse⟩ | ⟨s, hs, hid, _⟩
    · rw [hsec] at hfalse; exact Bool.noConfusion hfalse
    · rw [hid] at heq
      have hpart := (recordId_inj page.id page.version page.version s.section_id "full" heq).2
      obtain ⟨t, ht⟩ := sections_sid cfg.md page.body s hs
      rw [ht] at hpart
      exact full_ne_section t hpart.symm
  · intro hnodup
    unfold assembleDocuments
    simp only [List.map_cons, List.map_map]
    rw [List.nodup_cons]
    constructor
    · intro hmem
      rw [mkFullDoc_id cfg page m _ _] at hmem
      obtain ⟨s, hs, hid⟩ := List.mem_map.mp hmem
      have hid' : recordId page.id page.version s.section_id =
          recordId page.id page.version "full" := hid
      have hpart := (recordId_inj page.id page.version page.version _ _ hid').2
      obtain ⟨t, ht⟩ := sections_sid cfg.md page.body s hs
      rw [ht] at hpart
      exact full_ne_section t hpart.symm
    · have hinj : ∀ s1 ∈ splitContentIntoSections cfg.md page.body,
          ∀ s2 ∈ splitContentIntoSections cfg.md page.body,
          (mkSectionDoc cfg page m s1).id = (mkSectionDoc cfg page m s2).id →
          s1.section_id = s2.section_id := by
        intro s1 _ s2 _ h
        rw [mkSectionDoc_id, mkSectionDoc_id] at h
        exact (recordId_inj page.id page.version page.version _ _ h).2
      have hnodup' : (splitContentIntoSections cfg.md page.body).Nodup := by
        exact List.Nodup.of_map DocumentSection.section_id hnodup
      refine List.Nodup.map_on ?_ hnodup'
      intro s1 hs1 s2 hs2 h
      have hsid := hinj s1 hs1 s2 hs2 (by simpa using h)
      by_contra hne
      have := List.inj_on_of_nodup_map hnodup hs1 hs2 hsid
      exact hne this

theorem claim_C4_witness : ("p4_v1_full" : String) ≠ "p4_v2_full" := by
  intro hc
  have h := (claim_C4_amended cfg0 cfg0 pageC4 {} {}).1 1 2 (by decide)
    (mkFullDoc cfg0 (pageAt pageC4 1) {} (cfg0.md (docRaw pageC4.body)) "")
    (by unfold assembleDocuments; exact List.mem_cons_self _ _)
    (mkFullDoc cfg0 (pageAt pageC4 2) {} (cfg0.md (docRaw pageC4.body)) "")
    (by unfold assembleDocuments; exact List.mem_cons_self _ _)
  apply h
  have e1 : (mkFullDoc cfg0 (pageAt pageC4 1) {} (cfg0.md (docRaw pageC4.body)) "").id =
      "p4_v1_full" := by decide
  have e2 : (mkFullDoc cfg0 (pageAt pageC4 2) {} (cfg0.md (docRaw pageC4.body)) "").id =
      "p4_v2_full" := by decide
  rw [e1, e2]
  exact hc
